import Mathlib

/-!
Verification development for the CookinGPT hybrid recipe-retrieval core.

The Python source (`services/recipe_service.py`, `services/recipe_search_service.py`,
`services/llm_parsing_service.py`) is shallowly embedded below.  Python strings are
modelled as `String` / `List Char`, floats as `ℝ`, integers as `ℤ`/`ℕ`, fallible
provider calls as `Except String _`, and the ambient knowledge-base / embedding
provider as explicit parameters (the spec itself describes them as injected
collaborators: `load_corpus()` and `embed(text)`).
-/

/-! ## Python string primitives (on `List Char`)

Python's `str.strip`, `str.lower`, `str.split(sep)`, `str.split()` and the substring
test `a in b`, restricted to the ASCII inputs this code base works with. -/

/-- Python `str.strip()`: drop leading and trailing whitespace. -/
def pyStrip (cs : List Char) : List Char :=
  ((cs.dropWhile Char.isWhitespace).reverse.dropWhile Char.isWhitespace).reverse

/-- Python `str.lower()` (ASCII range, as `Char.toLower`). -/
def pyLower (cs : List Char) : List Char := cs.map Char.toLower

/-- Split at every character satisfying `p`; the separators are dropped and empty
pieces are kept, exactly like Python `str.split(sep)` keeps empty fields. -/
def pySplitWhen (p : Char → Bool) : List Char → List (List Char)
  | [] => [[]]
  | c :: t =>
    if p c then [] :: pySplitWhen p t
    else
      match pySplitWhen p t with
      | [] => [[c]]
      | h :: r => (c :: h) :: r

/-- Python `str.split()` (no argument): split on whitespace runs, dropping empties. -/
def pyWords (cs : List Char) : List (List Char) :=
  (pySplitWhen Char.isWhitespace cs).filter (fun w => !w.isEmpty)

/-- Match a literal stem at the head of the input, returning the remainder. -/
def matchStem : List Char → List Char → Option (List Char)
  | [], cs => some cs
  | _ :: _, [] => none
  | p :: ps, c :: cs => if p = c then matchStem ps cs else none

/-- Python substring test `needle in hay`. -/
def pySubstr (needle : List Char) : List Char → Bool
  | [] => needle.isEmpty
  | c :: t => (matchStem needle (c :: t)).isSome || pySubstr needle t

/-- Python slice `l[:k]` for an arbitrary (possibly negative) integer bound `k`:
`l[:k]` is the first `k` elements for `k ≥ 0` and all but the last `|k|` elements
for `k < 0`. -/
def pyTake {α : Type} (k : ℤ) (l : List α) : List α :=
  if 0 ≤ k then l.take k.toNat else l.take (l.length - (-k).toNat)

/-! ## Ingredient Normalizer (`recipe_service.normalize_ingredients`) -/

/-- `re.sub(r'^\d+\s*', '', s)`: if the string starts with a digit, remove the
leading digit run and the whitespace run after it. -/
def stripLeadingQty : List Char → List Char
  | [] => []
  | c :: t =>
    if c.isDigit then ((c :: t).dropWhile Char.isDigit).dropWhile Char.isWhitespace
    else c :: t

/-- `re.sub(r'\s+\d+\s*$', '', s)`: remove a trailing optional-whitespace run, a
digit run before it and the mandatory whitespace run before that; if the digit run
or that whitespace run is absent the string is unchanged (the regex has no match). -/
def stripTrailingQty (cs : List Char) : List Char :=
  let rs := cs.reverse
  let rs1 := rs.dropWhile Char.isWhitespace
  if (rs1.takeWhile Char.isDigit).isEmpty then cs
  else
    let rs2 := rs1.dropWhile Char.isDigit
    if (rs2.takeWhile Char.isWhitespace).isEmpty then cs
    else (rs2.dropWhile Char.isWhitespace).reverse

/-- The clean-up applied to each token inside the `for ingredient in ingredients`
loop of `normalize_ingredients`: `strip`, drop leading quantity, drop trailing
quantity, `strip` again. -/
def cleanIngredient (ingredient : List Char) : List Char :=
  pyStrip (stripTrailingQty (stripLeadingQty (pyStrip ingredient)))

/-- `recipe_service.normalize_ingredients`, transcribed from the source: empty input
gives `[]`; otherwise split on the first separator of `[',', ';', '\n', '|']`
contained in the text (the `for separator ... break` loop), mapping
`ing.strip().lower()` over the pieces, or keep the whole (stripped, lowered) text if
no separator occurs; then the clean-up loop drops empty tokens, removes quantities
and drops tokens that became empty. -/
def normalize_ingredients (text : String) : List String :=
  if text.data.isEmpty then []
  else
    (match [',', ';', '\n', '|'].find? (fun sep => text.data.contains sep) with
      | some sep => (pySplitWhen (fun c => c == sep) text.data).map (fun t => pyLower (pyStrip t))
      | none => [pyLower (pyStrip text.data)]).foldl
      (fun acc (ingredient : List Char) =>
        if ingredient.isEmpty then acc
        else
          if (cleanIngredient ingredient).isEmpty then acc
          else acc ++ [String.mk (cleanIngredient ingredient)])
      []

/-- Claim C3's reading of the Normalizer, modelled from the spec's words (§4.1):
pick the first separator in priority order and split on it (whole string if none);
lowercase and trim each token; strip leading/trailing numeric quantities; trim
again; drop empty tokens.  Stated independently of `normalize_ingredients` so the
two can be compared. -/
def normalizeSpec (text : String) : List String :=
  if text = "" then []
  else
    (match [',', ';', '\n', '|'].find? (fun sep => text.data.contains sep) with
      | some sep => pySplitWhen (fun c => c == sep) text.data
      | none => [text.data]).filterMap fun (tok : List Char) =>
      if (pyStrip (stripTrailingQty (stripLeadingQty (pyStrip (pyLower tok))))).isEmpty then none
      else some (String.mk (pyStrip (stripTrailingQty (stripLeadingQty (pyStrip (pyLower tok))))))

/-! ## Similarity Scorer (`recipe_search_service.cosine_similarity`) -/

/-- `np.dot` on two 1-d vectors of equal length (sum of products). -/
noncomputable def dotList : List ℝ → List ℝ → ℝ
  | a :: as, b :: bs => a * b + dotList as bs
  | _, _ => 0

/-- `np.linalg.norm`: the L2 norm. -/
noncomputable def l2norm (v : List ℝ) : ℝ := Real.sqrt (dotList v v)

/-- `np.dot` raises `ValueError` on 1-d shape mismatch; modelled as `Except`. -/
noncomputable def npDot (vec_a vec_b : List ℝ) : Except String ℝ :=
  if vec_a.length = vec_b.length then Except.ok (dotList vec_a vec_b)
  else Except.error "shapes not aligned"

/-- The `try` block of `cosine_similarity`: compute the norms, return `0.0` when
either is zero, otherwise divide the dot product by the product of norms; the dot
product is the only operation that can raise. -/
noncomputable def cosineTry (vec_a vec_b : List ℝ) : Except String ℝ :=
  if l2norm vec_a = 0 ∨ l2norm vec_b = 0 then Except.ok 0
  else Except.map (fun d => d / (l2norm vec_a * l2norm vec_b)) (npDot vec_a vec_b)

/-- `cosine_similarity`: the surrounding `except` swallows any error and returns
`0.0`. -/
noncomputable def cosine_similarity (vec_a vec_b : List ℝ) : ℝ :=
  match cosineTry vec_a vec_b with
  | Except.ok v => v
  | Except.error _ => 0

/-! ## Data model (`models.py`)

`RecipeData` is the knowledge-base record shape produced by `save_recipes_to_kb`
and consumed through `recipe_data.get(...)`; `embedding` is `none` for JSON `null`
(the code treats `None` and `[]` alike as "no embedding").  `RecipeRecommendation`
mirrors the pydantic model. -/

structure RecipeData where
  recipe_id : String
  title : String
  ingredients : String
  steps : String
  embedding : Option (List ℝ)

structure RecipeRecommendation where
  recipe_id : String
  title : String
  ingredients : String
  steps : String
  match_score : ℝ
  matched_ingredients : List String
  missing_ingredients : List String

/-! ## Lexical Matcher

The matched/missing classification loop appears verbatim in both
`find_recipes_by_ingredients` (lines 70-88) and `find_recipes_by_keywords`
(lines 131-150); it is factored out here. -/

/-- The per-token match test: `user_ingredient in recipe_ingredient or
recipe_ingredient in user_ingredient or any(word in recipe_ingredient.split() for
word in user_ingredient.split())`; the `for user_ingredient ... break` loop makes
the classification an existential over the user tokens. -/
def isIngredientMatch (user_norm : List String) (recipe_ingredient : String) : Bool :=
  user_norm.any fun user_ingredient =>
    pySubstr user_ingredient.data recipe_ingredient.data ||
    pySubstr recipe_ingredient.data user_ingredient.data ||
    (pyWords user_ingredient.data).any (fun w => (pyWords recipe_ingredient.data).contains w)

/-- The classification loop: each recipe ingredient is appended to
`matched_ingredients` if some user ingredient matches it, else to
`missing_ingredients`. -/
def classifyIngredients (user_norm recipe_ingredients : List String) :
    List String × List String :=
  recipe_ingredients.foldl
    (fun acc recipe_ingredient =>
      if isIngredientMatch user_norm recipe_ingredient then (acc.1 ++ [recipe_ingredient], acc.2)
      else (acc.1, acc.2 ++ [recipe_ingredient]))
    ([], [])

/-- The match ratio (§4.3): `len(matched)/len(recipe_ingredients) if
recipe_ingredients else 0`. -/
noncomputable def matchRatio (user_norm recipe_ingredients : List String) : ℝ :=
  if recipe_ingredients.isEmpty then 0
  else ((classifyIngredients user_norm recipe_ingredients).1.length : ℝ) /
    (recipe_ingredients.length : ℝ)

/-! ## Semantic Retriever (`find_recipes_by_ingredients`) -/

/-- Does any corpus recipe carry a usable embedding?  The source's triple test
(`is not None`, `!= []`, `len(...) > 0`) collapses to `some e` with `e` non-empty. -/
def hasEmbeddings (recipes_data : List RecipeData) : Bool :=
  recipes_data.any fun r =>
    match r.embedding with
    | some e => !e.isEmpty
    | none => false

/-- `query_text = ", ".join(user_ingredients_normalized)` where
`user_ingredients_normalized` flattens `normalize_ingredients` over the input. -/
def queryText (user_ingredients : List String) : String :=
  String.intercalate ", " (user_ingredients.flatMap normalize_ingredients)

/-- The body of the candidate loop for one recipe: recipes with a falsy embedding
are skipped (`continue`); recipes whose similarity is below the threshold are
skipped; otherwise a `RecipeRecommendation` is built with
`combined_score = similarity_score * 0.6 + match_ratio * 0.4`. -/
noncomputable def buildSemanticRec (user_norm : List String) (r : RecipeData) (sim : ℝ) :
    RecipeRecommendation :=
  let recipe_ingredients := normalize_ingredients r.ingredients
  let pair := classifyIngredients user_norm recipe_ingredients
  let match_ratio : ℝ :=
    if recipe_ingredients.isEmpty then 0
    else (pair.1.length : ℝ) / (recipe_ingredients.length : ℝ)
  { recipe_id := r.recipe_id
    title := r.title
    ingredients := r.ingredients
    steps := r.steps
    match_score := sim * 0.6 + match_ratio * 0.4
    matched_ingredients := pair.1
    missing_ingredients := pair.2 }

/-- One recipe's contribution in the semantic loop: `continue` on a falsy
embedding (`None` or `[]`), skip when `similarity_score >= threshold` fails,
otherwise build the recommendation. -/
noncomputable def semCandidate (query_embedding : List ℝ) (user_norm : List String)
    (threshold : ℝ) (r : RecipeData) : Option RecipeRecommendation :=
  match r.embedding with
  | none => none
  | some e =>
    if e.isEmpty then none
    else
      if threshold ≤ cosine_similarity query_embedding e then
        some (buildSemanticRec user_norm r (cosine_similarity query_embedding e))
      else none

/-- The `for recipe_data in recipes_data` accumulation loop of
`find_recipes_by_ingredients`, transcribed as a fold. -/
noncomputable def semanticLoop (query_embedding : List ℝ) (user_norm : List String)
    (threshold : ℝ) (recipes : List RecipeData) : List RecipeRecommendation :=
  recipes.foldl
    (fun acc r =>
      match semCandidate query_embedding user_norm threshold r with
      | some rec => acc ++ [rec]
      | none => acc)
    []

/-- Python `list.sort(key=..., reverse=True)` is a stable descending sort on the
key; `List.mergeSort` with this comparator is the same function. -/
noncomputable def scoreDescBool (a b : RecipeRecommendation) : Bool :=
  decide (b.match_score ≤ a.match_score)

noncomputable def sortByScoreDesc (l : List RecipeRecommendation) :
    List RecipeRecommendation :=
  l.mergeSort scoreDescBool

/-! ## Keyword Retriever (`find_recipes_by_keywords`) -/

/-- One recipe's contribution in the keyword loop.  The source counts `matches` in
lockstep with the appends to `matched_ingredients`, so `matches` equals the length
of the matched list; the recipe is admitted iff `matches > 0`, with
`match_score = matches / len(recipe_ingredients) if recipe_ingredients else 0`. -/
noncomputable def kwCandidate (user_norm : List String) (r : RecipeData) :
    Option RecipeRecommendation :=
  let recipe_ingredients := normalize_ingredients r.ingredients
  let pair := classifyIngredients user_norm recipe_ingredients
  if 0 < pair.1.length then
    some
      { recipe_id := r.recipe_id
        title := r.title
        ingredients := r.ingredients
        steps := r.steps
        match_score :=
          if recipe_ingredients.isEmpty then 0
          else (pair.1.length : ℝ) / (recipe_ingredients.length : ℝ)
        matched_ingredients := pair.1
        missing_ingredients := pair.2 }
  else none

/-- The `for recipe_data in recipes_data` loop of `find_recipes_by_keywords`. -/
noncomputable def keywordLoop (user_norm : List String) (recipes : List RecipeData) :
    List RecipeRecommendation :=
  recipes.foldl
    (fun acc r =>
      match kwCandidate user_norm r with
      | some rec => acc ++ [rec]
      | none => acc)
    []

/-- `find_recipes_by_keywords`: empty corpus gives `[]`; otherwise accumulate,
sort by `match_score` descending and slice `[:top_k]`. -/
noncomputable def find_recipes_by_keywords (recipes_data : List RecipeData)
    (user_ingredients : List String) (top_k : ℤ) : List RecipeRecommendation :=
  if recipes_data.isEmpty then []
  else
    pyTake top_k
      (sortByScoreDesc (keywordLoop (user_ingredients.flatMap normalize_ingredients) recipes_data))

/-- `find_recipes_by_ingredients`: empty corpus gives `[]`; without any corpus
embedding, fall back to keyword search; embed the joined normalized query once and
fall back to keyword search if the call fails; otherwise score, filter by
threshold, sort descending and slice `[:top_k]`. -/
noncomputable def find_recipes_by_ingredients (recipes_data : List RecipeData)
    (embedProvider : String → Except String (List ℝ)) (user_ingredients : List String)
    (top_k : ℤ) (threshold : ℝ) : List RecipeRecommendation :=
  if recipes_data.isEmpty then []
  else if hasEmbeddings recipes_data then
    match embedProvider (queryText user_ingredients) with
    | Except.error _ => find_recipes_by_keywords recipes_data user_ingredients top_k
    | Except.ok query_embedding =>
      pyTake top_k
        (sortByScoreDesc
          (semanticLoop query_embedding (user_ingredients.flatMap normalize_ingredients)
            threshold recipes_data))
  else find_recipes_by_keywords recipes_data user_ingredients top_k

/-! ## Hybrid Ranker (`hybrid_recipe_search`) -/

/-- The supplement loop; `seen_ids` starts as the semantic result ids, keyword
results with unseen ids are appended, and the loop breaks once
`len(semantic_results) >= top_k`. -/
def mergeKeywordResults (top_k : ℤ) :
    List RecipeRecommendation → List RecipeRecommendation → List String →
    List RecipeRecommendation
  | [], acc, _ => acc
  | result :: rest, acc, seen_ids =>
    if result.recipe_id ∈ seen_ids then mergeKeywordResults top_k rest acc seen_ids
    else
      let acc2 := acc ++ [result]
      if top_k ≤ (acc2.length : ℤ) then acc2
      else mergeKeywordResults top_k rest acc2 (result.recipe_id :: seen_ids)

/-- `hybrid_recipe_search`: semantic first; if fewer than `top_k` results,
supplement with deduplicated keyword results; re-sort and slice `[:top_k]`. -/
noncomputable def hybrid_recipe_search (recipes_data : List RecipeData)
    (embedProvider : String → Except String (List ℝ)) (user_ingredients : List String)
    (top_k : ℤ) (threshold : ℝ) : List RecipeRecommendation :=
  let semantic_results :=
    find_recipes_by_ingredients recipes_data embedProvider user_ingredients top_k threshold
  let merged :=
    if (semantic_results.length : ℤ) < top_k then
      mergeKeywordResults top_k
        (find_recipes_by_keywords recipes_data user_ingredients top_k)
        semantic_results (semantic_results.map RecipeRecommendation.recipe_id)
    else semantic_results
  pyTake top_k (sortByScoreDesc merged)

/-! ## NL Ingredient Extractor fallback (`llm_parsing_service._fallback_parsing`)

The fallback patterns all have the shape `<stem>(s?)<sep>([^.]+)` where `<sep>` is
either `\s+` or `\s*:?\s*` and the capture group `([^.]+)` is greedy.  A small
backtracking matcher for exactly this family, plus Python `re.findall` scanning,
is modelled below. -/

/-- The capture group `([^.]+)`: at the current position, greedily take one or more
non-`'.'` characters; fails when the next character is `'.'` or the input ends. -/
def reCapture (cs : List Char) : Option (List Char × List Char) :=
  let cap := cs.takeWhile (fun c => c != '.')
  if cap.isEmpty then none else some (cap, cs.drop cap.length)

/-- Try `reCapture` after dropping `k, k-1, ..., lo` characters, in that order —
the backtracking order of a greedy run before the capture group. -/
def trySuffixes (cs : List Char) (lo : ℕ) : ℕ → Option (List Char × List Char)
  | 0 => if lo = 0 then reCapture cs else none
  | k + 1 =>
    if k + 1 < lo then none
    else
      match reCapture (cs.drop (k + 1)) with
      | some r => some r
      | none => trySuffixes cs lo k

/-- Length of the leading whitespace run. -/
def wsRun (cs : List Char) : ℕ := (cs.takeWhile Char.isWhitespace).length

/-- `\s+([^.]+)`: a mandatory greedy whitespace run, backtracking down to one
whitespace character, then the capture. -/
def wsPlusCapture (cs : List Char) : Option (List Char × List Char) :=
  trySuffixes cs 1 (wsRun cs)

/-- `\s*:?\s*([^.]+)`: greedy, trying first with the optional colon (which can only
sit right after the maximal first whitespace run) and the whitespace after it, then
without the colon, backtracking the whitespace before the capture. -/
def optColonCapture (cs : List Char) : Option (List Char × List Char) :=
  let w1 := wsRun cs
  match cs.drop w1 with
  | ':' :: rest2 =>
    (match trySuffixes rest2 0 (wsRun rest2) with
     | some r => some r
     | none => trySuffixes cs 0 w1)
  | _ => trySuffixes cs 0 w1

/-- One fallback pattern: a literal stem, an optional `s?` after it, and either the
`\s*:?\s*` separator (`colonSep = true`) or `\s+`, before the capture group. -/
structure RegexShape where
  stem : List Char
  optS : Bool
  colonSep : Bool

def sepCapture (shape : RegexShape) (cs : List Char) : Option (List Char × List Char) :=
  if shape.colonSep then optColonCapture cs else wsPlusCapture cs

/-- Match a shape at the start of `cs`, returning the captured group and the
remainder after the whole match.  The greedy `s?` is tried first with the `'s'`
consumed, then without. -/
def matchShapeAt (shape : RegexShape) (cs : List Char) : Option (List Char × List Char) :=
  match matchStem shape.stem cs with
  | none => none
  | some rest =>
    if shape.optS then
      match rest with
      | 's' :: rest2 =>
        (match sepCapture shape rest2 with
         | some r => some r
         | none => sepCapture shape rest)
      | _ => sepCapture shape rest
    else sepCapture shape rest

/-- Python `re.findall`: scan left to right, emit each (non-overlapping) match's
capture group and continue after the match.  Fuel is the input length; every step
consumes at least one character. -/
def reFindAllAux (shape : RegexShape) : ℕ → List Char → List (List Char)
  | 0, _ => []
  | fuel + 1, cs =>
    match matchShapeAt shape cs with
    | some (cap, rest) => cap :: reFindAllAux shape fuel rest
    | none =>
      match cs with
      | [] => []
      | _ :: t => reFindAllAux shape fuel t

def reFindAll (shape : RegexShape) (cs : List Char) : List (List Char) :=
  reFindAllAux shape cs.length cs

/-- `re.split(r'[,;]\s*', s)`: split at each comma/semicolon, also consuming the
whitespace run after it.  Fuel is the input length. -/
def splitCommaWSAux : ℕ → List Char → List Char → List (List Char)
  | _, acc, [] => [acc.reverse]
  | 0, acc, rest => [acc.reverse ++ rest]
  | fuel + 1, acc, c :: t =>
    if c = ',' ∨ c = ';' then
      acc.reverse :: splitCommaWSAux fuel [] (t.dropWhile Char.isWhitespace)
    else splitCommaWSAux fuel (c :: acc) t

def splitCommaWS (cs : List Char) : List (List Char) :=
  splitCommaWSAux cs.length [] cs

/-- The per-match collection step shared by both pattern loops: split the stripped
capture on `[,;]\s*`, strip each part, keep parts of length `> 1`. -/
def collectParts (m : List Char) : List String :=
  (splitCommaWS (pyStrip m)).filterMap fun part =>
    let part := pyStrip part
    if ¬part.isEmpty ∧ 1 < part.length then some (String.mk part) else none

/-- All tokens contributed by one pattern over the (already lowercased) input. -/
def tokensOfShape (shape : RegexShape) (lower : List Char) : List String :=
  (reFindAll shape lower).flatMap collectParts

/-- The stem of `r'i\'ve got\s+([^.]+)'` (apostrophe written by code point). -/
def iveGotStem : List Char := ['i', Char.ofNat 39, 'v', 'e', ' ', 'g', 'o', 't']

def ingredientShapes : List RegexShape :=
  [⟨"i have".data, false, false⟩,
   ⟨iveGotStem, false, false⟩,
   ⟨"ingredient".data, true, true⟩,
   ⟨"available".data, false, false⟩]

def preferenceShapes : List RegexShape :=
  [⟨"i want".data, false, false⟩,
   ⟨"i need".data, false, false⟩,
   ⟨"something".data, false, false⟩,
   ⟨"for".data, false, false⟩,
   ⟨"serving".data, true, true⟩,
   ⟨"quick".data, false, false⟩]

/-- `list(dict.fromkeys(l))`: deduplicate keeping first occurrences. -/
def pyDedupAux : List String → List String → List String
  | _, [] => []
  | seen, x :: t => if x ∈ seen then pyDedupAux seen t else x :: pyDedupAux (x :: seen) t

def pyDedup (l : List String) : List String := pyDedupAux [] l

/-- `LLMParsingService._fallback_parsing`: run the ingredient patterns and the
preference patterns over the lowercased input; if no ingredient pattern produced
anything, split the ORIGINAL input (not the lowercased one) as a flat
comma/semicolon list; deduplicate both lists. -/
def fallback_parsing (user_input : String) : List String × List String :=
  let user_input_lower := user_input.data.map Char.toLower
  let ingredients0 := ingredientShapes.flatMap fun s => tokensOfShape s user_input_lower
  let preferences0 := preferenceShapes.flatMap fun s => tokensOfShape s user_input_lower
  let ingredients1 :=
    if ingredients0.isEmpty then
      (splitCommaWS user_input.data).filterMap fun part =>
        let part := pyStrip part
        if ¬part.isEmpty ∧ 1 < part.length then some (String.mk part) else none
    else ingredients0
  (pyDedup ingredients1, pyDedup preferences0)

/-- `LLMParsingService.parse_user_input` when `self.client` is `None` (no
`MISTRAL_API_KEY` configured): it goes directly to `_fallback_parsing`
(lines 44-46). -/
def parse_user_input_no_client (user_input : String) : List String × List String :=
  fallback_parsing user_input

/-! ## Concrete corpora and providers used to instantiate the theorems -/

/-- A recipe carrying a (1-dimensional) embedding. -/
def rcpSemA : RecipeData := ⟨"r1", "Egg Bowl", "egg", "cook", some [1]⟩

/-- Two embedded recipes with distinct ids and empty ingredient text. -/
def rcpPairA : RecipeData := ⟨"s1", "T1", "", "", some [1]⟩

def rcpPairB : RecipeData := ⟨"s2", "T2", "", "", some [1]⟩

/-- Two keyword-only recipes (no embeddings) both containing "egg". -/
def rcpKwA : RecipeData := ⟨"a", "A", "egg", "", none⟩

def rcpKwB : RecipeData := ⟨"b", "B", "egg", "", none⟩

/-- An embedding provider that always succeeds with the vector `[1]`. -/
def embedOk : String → Except String (List ℝ) := fun _ => Except.ok [1]

/-- An embedding provider that always fails (e.g. rate-limited). -/
def embedFail : String → Except String (List ℝ) := fun _ => Except.error "rate limited"

/-! ## Helper lemmas -/

theorem dotList_nil_nil : dotList [] [] = 0 := rfl

theorem dotList_cons (a b : ℝ) (as bs : List ℝ) :
    dotList (a :: as) (b :: bs) = a * b + dotList as bs := rfl

theorem l2norm_single_one : l2norm [(1 : ℝ)] = 1 := by
  rw [l2norm, dotList_cons, dotList_nil_nil]
  norm_num

theorem l2norm_pair_one_zero : l2norm [(1 : ℝ), 0] = 1 := by
  rw [l2norm, dotList_cons, dotList_cons, dotList_nil_nil]
  norm_num

theorem cosine_one_one : cosine_similarity [(1 : ℝ)] [1] = 1 := by
  have hln : l2norm [(1 : ℝ)] = 1 := l2norm_single_one
  have hne : ¬(l2norm [(1 : ℝ)] = 0 ∨ l2norm [(1 : ℝ)] = 0) := by
    rw [hln]; norm_num
  have htry : cosineTry [(1 : ℝ)] [1] = Except.ok 1 := by
    rw [cosineTry, if_neg hne, npDot, if_pos rfl, Except.map, dotList_cons, dotList_nil_nil, hln]
    norm_num
  rw [cosine_similarity, htry]

theorem length_filter_partition {α : Type} (p : α → Bool) (l : List α) :
    (l.filter p).length + (l.filter (fun x => !p x)).length = l.length := by
  induction l with
  | nil => rfl
  | cons a t ih =>
    cases h : p a <;> simp [List.filter_cons, h] <;> omega

theorem classifyIngredients_loop (user_norm : List String) (recipe_tokens : List String) :
    ∀ m s : List String,
      recipe_tokens.foldl
        (fun acc recipe_ingredient =>
          if isIngredientMatch user_norm recipe_ingredient then (acc.1 ++ [recipe_ingredient], acc.2)
          else (acc.1, acc.2 ++ [recipe_ingredient]))
        (m, s) =
      (m ++ recipe_tokens.filter (isIngredientMatch user_norm),
       s ++ recipe_tokens.filter (fun r => !isIngredientMatch user_norm r)) := by
  induction recipe_tokens with
  | nil => intro m s; simp
  | cons r t ih =>
    intro m s
    cases h : isIngredientMatch user_norm r
    · simp [List.foldl_cons, List.filter_cons, h, ih m (s ++ [r]), List.append_assoc]
    · simp [List.foldl_cons, List.filter_cons, h, ih (m ++ [r]) s, List.append_assoc]

theorem classifyIngredients_eq (user_norm recipe_tokens : List String) :
    classifyIngredients user_norm recipe_tokens =
      (recipe_tokens.filter (isIngredientMatch user_norm),
       recipe_tokens.filter (fun r => !isIngredientMatch user_norm r)) := by
  rw [classifyIngredients]
  have := classifyIngredients_loop user_norm recipe_tokens [] []
  simpa using this

/-! ## Claim C6 -/

/-- Claim C6: the Similarity Scorer is total: the inner try-block never raises on
equal-length vectors; the result is `0.0` whenever either vector has zero L2 norm
and `dot(a,b) / (norm(a)·norm(b))` otherwise; and
`cosine([0,0,0],[1,2,3]) = 0`, `cosine([1,0],[1,0]) = 1`, `cosine([1,0],[0,1]) = 0`. -/
theorem cosine_total_and_values :
    (∀ vec_a vec_b : List ℝ, l2norm vec_a = 0 ∨ l2norm vec_b = 0 →
       cosine_similarity vec_a vec_b = 0) ∧
    (∀ vec_a vec_b : List ℝ, vec_a.length = vec_b.length → l2norm vec_a ≠ 0 →
       l2norm vec_b ≠ 0 →
       cosine_similarity vec_a vec_b = dotList vec_a vec_b / (l2norm vec_a * l2norm vec_b)) ∧
    (∀ vec_a vec_b : List ℝ, vec_a.length = vec_b.length →
       ∃ v, cosineTry vec_a vec_b = Except.ok v) ∧
    cosine_similarity [0, 0, 0] [1, 2, 3] = 0 ∧
    cosine_similarity [1, 0] [1, 0] = 1 ∧
    cosine_similarity [1, 0] [0, 1] = 0 := by
  have hzero : ∀ vec_a vec_b : List ℝ, l2norm vec_a = 0 ∨ l2norm vec_b = 0 →
      cosine_similarity vec_a vec_b = 0 := by
    intro a b h
    have : cosineTry a b = Except.ok 0 := by rw [cosineTry, if_pos h]
    rw [cosine_similarity, this]
  have hformula : ∀ vec_a vec_b : List ℝ, vec_a.length = vec_b.length →
      l2norm vec_a ≠ 0 → l2norm vec_b ≠ 0 →
      cosine_similarity vec_a vec_b = dotList vec_a vec_b / (l2norm vec_a * l2norm vec_b) := by
    intro a b hlen ha hb
    have : cosineTry a b = Except.ok (dotList a b / (l2norm a * l2norm b)) := by
      rw [cosineTry, if_neg (not_or.mpr ⟨ha, hb⟩), npDot, if_pos hlen, Except.map]
    rw [cosine_similarity, this]
  refine ⟨hzero, hformula, ?_, ?_, ?_, ?_⟩
  · intro a b hlen
    by_cases h : l2norm a = 0 ∨ l2norm b = 0
    · exact ⟨0, by rw [cosineTry, if_pos h]⟩
    · exact ⟨dotList a b / (l2norm a * l2norm b),
        by rw [cosineTry, if_neg h, npDot, if_pos hlen, Except.map]⟩
  · apply hzero
    left
    rw [l2norm, dotList_cons, dotList_cons, dotList_cons, dotList_nil_nil]
    norm_num
  · rw [hformula [1, 0] [1, 0] rfl (by rw [l2norm_pair_one_zero]; norm_num)
      (by rw [l2norm_pair_one_zero]; norm_num), l2norm_pair_one_zero,
      dotList_cons, dotList_cons, dotList_nil_nil]
    norm_num
  · have hb : l2norm [(0 : ℝ), 1] ≠ 0 := by
      rw [l2norm, dotList_cons, dotList_cons, dotList_nil_nil]
      norm_num
    rw [hformula [1, 0] [0, 1] rfl (by rw [l2norm_pair_one_zero]; norm_num) hb,
      dotList_cons, dotList_cons, dotList_nil_nil]
    norm_num

/-- Witness for C6: the non-degenerate formula at the concrete pair `[1,0]`, `[1,0]`. -/
theorem cosine_total_and_values_witness :
    cosine_similarity [1, 0] [1, 0] = dotList [1, 0] [1, 0] / (l2norm [1, 0] * l2norm [1, 0]) :=
  cosine_total_and_values.2.1 [1, 0] [1, 0] rfl
    (by rw [l2norm_pair_one_zero]; norm_num) (by rw [l2norm_pair_one_zero]; norm_num)

/-! ## Claim C9 -/

/-- Claim C9 counterexample: on mismatched dimensionality the inner `np.dot` raises
(`cosineTry` is an error), but `cosine_similarity` swallows it and returns the
numeric score `0.0` — nothing is surfaced as a hard failure at any layer. -/
theorem cosine_mismatch_silently_zero_cx :
    cosineTry [1] [1, 1] = Except.error "shapes not aligned" ∧
    cosine_similarity [1] [1, 1] = 0 := by
  have hne : ¬(l2norm [(1 : ℝ)] = 0 ∨ l2norm [(1 : ℝ), 1] = 0) := by
    rw [l2norm_single_one, l2norm, dotList_cons, dotList_cons, dotList_nil_nil]
    norm_num
  have htry : cosineTry [(1 : ℝ)] [1, 1] = Except.error "shapes not aligned" := by
    rw [cosineTry, if_neg hne, npDot, if_neg (by norm_num), Except.map]
  exact ⟨htry, by rw [cosine_similarity, htry]⟩

/-- Claim C9, amended: a dimensionality mismatch is NOT a hard failure — the
exception from `np.dot` is caught and silently coerced to the score `0.0`. -/
theorem cosine_mismatch_coerced_to_zero (vec_a vec_b : List ℝ)
    (h : vec_a.length ≠ vec_b.length) : cosine_similarity vec_a vec_b = 0 := by
  by_cases hz : l2norm vec_a = 0 ∨ l2norm vec_b = 0
  · have : cosineTry vec_a vec_b = Except.ok 0 := by rw [cosineTry, if_pos hz]
    rw [cosine_similarity, this]
  · have : cosineTry vec_a vec_b = Except.error "shapes not aligned" := by
      rw [cosineTry, if_neg hz, npDot, if_neg h, Except.map]
    rw [cosine_similarity, this]

theorem cosine_mismatch_coerced_to_zero_witness : cosine_similarity [2] [2, 2] = 0 :=
  cosine_mismatch_coerced_to_zero [2] [2, 2] (by norm_num)

/-! ## Claim C7 -/

/-- Claim C7: for every query token list and recipe token list, the matched and
missing lists are the two filters of the recipe token list along the match
predicate (a partition with no overlap), their lengths sum to the recipe token
count, and the match ratio of an empty recipe token list is `0`. -/
theorem lexical_matcher_partition :
    (∀ user_norm recipe_tokens : List String,
       (classifyIngredients user_norm recipe_tokens).1.length +
           (classifyIngredients user_norm recipe_tokens).2.length = recipe_tokens.length ∧
         (classifyIngredients user_norm recipe_tokens).1 =
           recipe_tokens.filter (isIngredientMatch user_norm) ∧
         (classifyIngredients user_norm recipe_tokens).2 =
           recipe_tokens.filter (fun r => !isIngredientMatch user_norm r)) ∧
    ∀ user_norm : List String, matchRatio user_norm [] = 0 := by
  constructor
  · intro user_norm recipe_tokens
    rw [classifyIngredients_eq]
    exact ⟨length_filter_partition _ _, rfl, rfl⟩
  · intro user_norm
    rw [matchRatio]
    simp

/-! ## Claim C8 -/

/-- Claim C8 counterexample: on the end-to-end input the regex fallback does NOT
produce `"rice"` or `"tomatoes"` as elements of the ingredients list — the
captured group is split only on commas/semicolons, so `"rice and tomatoes"`
survives as a single token. -/
theorem nl_fallback_missing_rice_cx :
    "rice" ∉ (parse_user_input_no_client
        "I have chicken, rice and tomatoes, need something quick for 2 servings").1 ∧
      "tomatoes" ∉ (parse_user_input_no_client
        "I have chicken, rice and tomatoes, need something quick for 2 servings").1 := by
  decide

/-- Claim C8, amended: with no LLM client the fallback yields ingredients
`["chicken", "rice and tomatoes", "need something quick for 2 servings"]` —
`chicken` is an element, while `rice` and `tomatoes` occur only inside the single
token `"rice and tomatoes"` (plus a spurious token from the tail of the sentence) —
and the non-empty preferences `["quick for 2 servings", "2 servings",
"for 2 servings"]`, whose tokens derive from "quick" / "2 servings". -/
theorem nl_fallback_exact_output :
    parse_user_input_no_client
        "I have chicken, rice and tomatoes, need something quick for 2 servings" =
      (["chicken", "rice and tomatoes", "need something quick for 2 servings"],
       ["quick for 2 servings", "2 servings", "for 2 servings"]) ∧
      "chicken" ∈ (parse_user_input_no_client
        "I have chicken, rice and tomatoes, need something quick for 2 servings").1 ∧
      pySubstr "rice".data "rice and tomatoes".data = true ∧
      pySubstr "tomatoes".data "rice and tomatoes".data = true := by
  decide

/-! ## Claim C10 -/

/-- Claim C10: tokens captured by the fallback's regex patterns come from the
lowercased input (on the end-to-end input every produced ingredient token is
fixed by lowercasing), but when no ingredient pattern matches, the flat
comma/semicolon split runs on the ORIGINAL input and keeps its casing — so for
input `"Beef, Pork"` the extractor returns non-lowercase ingredient tokens. -/
theorem nl_fallback_casing_contrast :
    parse_user_input_no_client "Beef, Pork" = (["Beef", "Pork"], []) ∧
      ("Beef" ∈ (parse_user_input_no_client "Beef, Pork").1 ∧
        String.mk (pyLower "Beef".data) ≠ "Beef") ∧
      ∀ t ∈ (parse_user_input_no_client
        "I have chicken, rice and tomatoes, need something quick for 2 servings").1,
        String.mk (pyLower t.data) = t := by
  decide

/-! ## Claim C3: character-level lemmas and the Normalizer refinement -/
theorem char_toNat_ofNat {n : ℕ} (h : n < 55296) : (Char.ofNat n).toNat = n := by
  rw [Char.ofNat, dif_pos (Or.inl h)]
  rfl

theorem char_eq_of_toNat_eq {c d : Char} (h : c.toNat = d.toNat) : c = d :=
  Char.ext (UInt32.ext h)

theorem char_isWhitespace_iff (c : Char) :
    c.isWhitespace = true ↔ (c.toNat = 32 ∨ c.toNat = 9 ∨ c.toNat = 13 ∨ c.toNat = 10) := by
  rw [Char.isWhitespace]
  simp only [Bool.or_eq_true, decide_eq_true_eq]
  constructor
  · rintro (((rfl | rfl) | rfl) | rfl)
    · exact Or.inl rfl
    · exact Or.inr (Or.inl rfl)
    · exact Or.inr (Or.inr (Or.inl rfl))
    · exact Or.inr (Or.inr (Or.inr rfl))
  · rintro (h | h | h | h)
    · exact Or.inl (Or.inl (Or.inl (char_eq_of_toNat_eq h)))
    · exact Or.inl (Or.inl (Or.inr (char_eq_of_toNat_eq h)))
    · exact Or.inl (Or.inr (char_eq_of_toNat_eq h))
    · exact Or.inr (char_eq_of_toNat_eq h)

theorem ws_toLower (c : Char) : (Char.toLower c).isWhitespace = c.isWhitespace := by
  rw [Char.toLower]
  by_cases h : c.toNat ≥ 65 ∧ c.toNat ≤ 90
  · rw [if_pos h]
    have h1 : (Char.ofNat (c.toNat + 32)).toNat = c.toNat + 32 :=
      char_toNat_ofNat (by omega)
    have h2 : (Char.ofNat (c.toNat + 32)).isWhitespace = false := by
      rw [Bool.eq_false_iff]
      intro hw
      rcases (char_isWhitespace_iff _).mp hw with hx | hx | hx | hx <;> rw [h1] at hx <;> omega
    have h3 : c.isWhitespace = false := by
      rw [Bool.eq_false_iff]
      intro hw
      rcases (char_isWhitespace_iff _).mp hw with hx | hx | hx | hx <;> omega
    rw [h2, h3]
  · rw [if_neg h]

theorem dropWhile_idem {α : Type} (p : α → Bool) (l : List α) :
    (l.dropWhile p).dropWhile p = l.dropWhile p := by
  induction l with
  | nil => rfl
  | cons a t ih =>
    by_cases h : p a
    · simp [List.dropWhile_cons, h, ih]
    · simp [List.dropWhile_cons, h]

theorem not_head_dropWhile {α : Type} (p : α → Bool) {l : List α} {x : α} {r : List α}
    (h : l.dropWhile p = x :: r) : p x = false := by
  induction l with
  | nil => simp at h
  | cons a t ih =>
    rw [List.dropWhile_cons] at h
    by_cases hp : p a
    · rw [if_pos hp] at h
      exact ih h
    · rw [if_neg hp] at h
      injection h with hx _
      subst hx
      exact Bool.eq_false_iff.mpr hp

theorem pyStrip_idem (cs : List Char) : pyStrip (pyStrip cs) = pyStrip cs := by
  rw [pyStrip, pyStrip]
  generalize hA : cs.dropWhile Char.isWhitespace = A
  have h1 : (A.reverse.dropWhile Char.isWhitespace).reverse.dropWhile Char.isWhitespace
      = (A.reverse.dropWhile Char.isWhitespace).reverse := by
    cases hRR : (A.reverse.dropWhile Char.isWhitespace).reverse with
    | nil => rfl
    | cons x xs =>
      have hpre : (A.reverse.dropWhile Char.isWhitespace).reverse <+: A := by
        rw [← List.reverse_suffix, List.reverse_reverse]
        exact List.dropWhile_suffix _
      obtain ⟨t2, ht2⟩ := hpre
      rw [hRR] at ht2
      have hx : Char.isWhitespace x = false := by
        apply not_head_dropWhile Char.isWhitespace (l := cs) (r := xs ++ t2)
        rw [hA, ← ht2]
        rfl
      rw [List.dropWhile_cons, hx]
      simp
  rw [h1, List.reverse_reverse, dropWhile_idem]

theorem pyLower_pyStrip (cs : List Char) : pyLower (pyStrip cs) = pyStrip (pyLower cs) := by
  have hcomp : Char.isWhitespace ∘ Char.toLower = Char.isWhitespace := funext ws_toLower
  rw [pyStrip, pyStrip, pyLower, pyLower, List.dropWhile_map, hcomp, ← List.map_reverse,
    List.dropWhile_map, hcomp, ← List.map_reverse]

theorem clean_token_eq (tok : List Char) :
    (if (pyLower (pyStrip tok)).isEmpty then (none : Option String)
     else
       if (cleanIngredient (pyLower (pyStrip tok))).isEmpty then none
       else some (String.mk (cleanIngredient (pyLower (pyStrip tok)))))
    = if (pyStrip (stripTrailingQty (stripLeadingQty (pyStrip (pyLower tok))))).isEmpty then none
      else some (String.mk (pyStrip (stripTrailingQty (stripLeadingQty (pyStrip (pyLower tok)))))) := by
  rw [← pyLower_pyStrip]
  have hsu : pyStrip (pyLower (pyStrip tok)) = pyLower (pyStrip tok) := by
    rw [pyLower_pyStrip, pyStrip_idem, ← pyLower_pyStrip]
  rw [cleanIngredient, hsu]
  by_cases h0 : (pyLower (pyStrip tok)).isEmpty
  · rw [if_pos h0, List.isEmpty_iff.mp h0]
    rfl
  · rw [if_neg h0]

theorem normalize_loop_eq (tokens : List (List Char)) :
    ∀ acc : List String,
      tokens.foldl
        (fun acc (ingredient : List Char) =>
          if ingredient.isEmpty then acc
          else
            if (cleanIngredient ingredient).isEmpty then acc
            else acc ++ [String.mk (cleanIngredient ingredient)]) acc
      = acc ++ tokens.filterMap
          (fun ingredient =>
            if ingredient.isEmpty then none
            else
              if (cleanIngredient ingredient).isEmpty then none
              else some (String.mk (cleanIngredient ingredient))) := by
  induction tokens with
  | nil => intro acc; simp
  | cons tok t ih =>
    intro acc
    by_cases h1 : tok.isEmpty
    · simp only [List.foldl_cons, List.filterMap_cons, if_pos h1]
      exact ih acc
    · by_cases h2 : (cleanIngredient tok).isEmpty
      · simp only [List.foldl_cons, List.filterMap_cons, if_neg h1, if_pos h2]
        exact ih acc
      · simp only [List.foldl_cons, List.filterMap_cons, if_neg h1, if_neg h2]
        rw [ih (acc ++ [String.mk (cleanIngredient tok)])]
        simp [List.append_assoc]

/-- Claim C3: the Ingredient Normalizer agrees everywhere with the spec's
description (first separator in priority order, split, lowercase+trim, strip
quantities, drop empties), and on the three quoted examples. -/
theorem normalizer_matches_spec :
    (∀ text : String, normalize_ingredients text = normalizeSpec text) ∧
      normalize_ingredients "Tomatoes, Onions; extra" = ["tomatoes", "onions; extra"] ∧
      normalize_ingredients "2 eggs" = ["eggs"] ∧
      normalize_ingredients "" = [] := by
  refine ⟨?_, by decide, by decide, rfl⟩
  intro text
  rw [normalize_ingredients, normalizeSpec]
  by_cases h : text.data = []
  · rw [if_pos (List.isEmpty_iff.mpr h), if_pos (String.ext_iff.mpr h)]
  · rw [if_neg (fun hb => h (List.isEmpty_iff.mp hb)),
      if_neg (fun he => h (String.ext_iff.mp he))]
    cases hf : [',', ';', '\n', '|'].find? (fun sep => text.data.contains sep) with
    | some sep =>
      dsimp only
      rw [normalize_loop_eq, List.nil_append, List.filterMap_map]
      have hfg :
          ((fun ingredient : List Char =>
              if ingredient.isEmpty then (none : Option String)
              else
                if (cleanIngredient ingredient).isEmpty then none
                else some (String.mk (cleanIngredient ingredient))) ∘
            (fun t => pyLower (pyStrip t)))
          = fun tok =>
              if (pyStrip (stripTrailingQty (stripLeadingQty (pyStrip (pyLower tok))))).isEmpty
              then none
              else some (String.mk (pyStrip (stripTrailingQty (stripLeadingQty
                (pyStrip (pyLower tok)))))) := by
        funext tok
        exact clean_token_eq tok
      rw [hfg]
    | none =>
      dsimp only
      rw [normalize_loop_eq, List.nil_append]
      simp only [List.filterMap_cons, List.filterMap_nil]
      rw [clean_token_eq]

/-! ## Loop, slice and sort lemmas -/

theorem semanticLoop_aux (query_embedding : List ℝ) (user_norm : List String)
    (threshold : ℝ) :
    ∀ (recipes : List RecipeData) (acc : List RecipeRecommendation),
      recipes.foldl
        (fun acc r =>
          match semCandidate query_embedding user_norm threshold r with
          | some rec => acc ++ [rec]
          | none => acc) acc
        = acc ++ recipes.filterMap (semCandidate query_embedding user_norm threshold) := by
  intro recipes
  induction recipes with
  | nil => intro acc; simp
  | cons a t ih =>
    intro acc
    rw [List.foldl_cons, List.filterMap_cons]
    cases hfa : semCandidate query_embedding user_norm threshold a with
    | none =>
      simp only [hfa]
      exact ih acc
    | some b =>
      simp only [hfa]
      rw [ih (acc ++ [b])]
      simp [List.append_assoc]

theorem semanticLoop_eq (query_embedding : List ℝ) (user_norm : List String)
    (threshold : ℝ) (recipes : List RecipeData) :
    semanticLoop query_embedding user_norm threshold recipes
      = recipes.filterMap (semCandidate query_embedding user_norm threshold) := by
  rw [semanticLoop, semanticLoop_aux, List.nil_append]

theorem keywordLoop_aux (user_norm : List String) :
    ∀ (recipes : List RecipeData) (acc : List RecipeRecommendation),
      recipes.foldl
        (fun acc r =>
          match kwCandidate user_norm r with
          | some rec => acc ++ [rec]
          | none => acc) acc
        = acc ++ recipes.filterMap (kwCandidate user_norm) := by
  intro recipes
  induction recipes with
  | nil => intro acc; simp
  | cons a t ih =>
    intro acc
    rw [List.foldl_cons, List.filterMap_cons]
    cases hfa : kwCandidate user_norm a with
    | none =>
      simp only [hfa]
      exact ih acc
    | some b =>
      simp only [hfa]
      rw [ih (acc ++ [b])]
      simp [List.append_assoc]

theorem keywordLoop_eq (user_norm : List String) (recipes : List RecipeData) :
    keywordLoop user_norm recipes = recipes.filterMap (kwCandidate user_norm) := by
  rw [keywordLoop, keywordLoop_aux, List.nil_append]

theorem pyTake_sublist {α : Type} (k : ℤ) (l : List α) : (pyTake k l).Sublist l := by
  rw [pyTake]
  split
  · exact List.take_sublist _ _
  · exact List.take_sublist _ _

theorem pyTake_zero {α : Type} (l : List α) : pyTake 0 l = [] := by
  rw [pyTake, if_pos le_rfl]
  rfl

theorem pyTake_all {α : Type} {k : ℤ} (hk : 0 ≤ k) {l : List α}
    (h : (l.length : ℤ) ≤ k) : pyTake k l = l := by
  rw [pyTake, if_pos hk]
  exact List.take_of_length_le (by omega)

theorem pyTake_length_le {α : Type} (k : ℤ) (hk : 0 ≤ k) (l : List α) :
    ((pyTake k l).length : ℤ) ≤ k := by
  rw [pyTake, if_pos hk, List.length_take]
  omega

theorem sortByScoreDesc_perm (l : List RecipeRecommendation) :
    (sortByScoreDesc l).Perm l :=
  List.mergeSort_perm l _

theorem length_sortByScoreDesc (l : List RecipeRecommendation) :
    (sortByScoreDesc l).length = l.length :=
  List.length_mergeSort l

theorem sortByScoreDesc_sorted (l : List RecipeRecommendation) :
    List.Pairwise (fun a b => b.match_score ≤ a.match_score) (sortByScoreDesc l) := by
  have h := @List.sorted_mergeSort RecipeRecommendation scoreDescBool
    (fun a b c hab hbc => by
      rw [scoreDescBool] at *
      exact decide_eq_true (le_trans (of_decide_eq_true hbc) (of_decide_eq_true hab)))
    (fun a b => by
      rw [scoreDescBool, scoreDescBool]
      simp only [Bool.or_eq_true, decide_eq_true_eq]
      exact le_total _ _)
    l
  exact h.imp (fun hab => of_decide_eq_true hab)

/-! ## Claim C4 -/

/-- Claim C4 counterexample: `top_k = -1` does NOT give an empty result.  Python's
slice `[:top_k]` with a negative bound keeps all but the last `|top_k|` elements,
so with two matching recipes the Keyword Retriever returns one recommendation. -/
theorem keyword_retriever_nonempty_on_negative_topk :
    find_recipes_by_keywords [rcpKwA, rcpKwB] ["egg"] (-1) ≠ [] := by
  obtain ⟨ra, hra⟩ : ∃ x, kwCandidate (["egg"].flatMap normalize_ingredients) rcpKwA = some x :=
    Option.isSome_iff_exists.mp (by rfl)
  obtain ⟨rb, hrb⟩ : ∃ x, kwCandidate (["egg"].flatMap normalize_ingredients) rcpKwB = some x :=
    Option.isSome_iff_exists.mp (by rfl)
  have hloop : (keywordLoop (["egg"].flatMap normalize_ingredients) [rcpKwA, rcpKwB]).length = 2 := by
    rw [keywordLoop_eq]
    simp only [List.filterMap_cons, List.filterMap_nil, hra, hrb]
    rfl
  intro hnil
  rw [find_recipes_by_keywords, if_neg (by rw [List.isEmpty_iff]; simp)] at hnil
  have hlen1 :
      (pyTake (-1) (sortByScoreDesc
        (keywordLoop (["egg"].flatMap normalize_ingredients) [rcpKwA, rcpKwB]))).length = 1 := by
    rw [pyTake, if_neg (by norm_num), List.length_take, length_sortByScoreDesc, hloop]
    decide
  rw [hnil] at hlen1
  simp at hlen1

/-- Claim C4, amended: every retriever returns `[]` for `top_k = 0`; for negative
`top_k` the Python slice keeps all but the last `|top_k|` sorted recommendations,
which can be non-empty. -/
theorem retrievers_empty_on_topk_zero (corpus : List RecipeData)
    (embedProvider : String → Except String (List ℝ)) (user : List String) (thr : ℝ) :
    find_recipes_by_ingredients corpus embedProvider user 0 thr = [] ∧
      find_recipes_by_keywords corpus user 0 = [] ∧
      hybrid_recipe_search corpus embedProvider user 0 thr = [] := by
  have hkw : find_recipes_by_keywords corpus user 0 = [] := by
    rw [find_recipes_by_keywords]
    split
    · rfl
    · exact pyTake_zero _
  have hsem : find_recipes_by_ingredients corpus embedProvider user 0 thr = [] := by
    rw [find_recipes_by_ingredients]
    split
    · rfl
    · split
      · cases hq : embedProvider (queryText user) with
        | error e => exact hkw
        | ok qe => exact pyTake_zero _
      · exact hkw
  refine ⟨hsem, hkw, ?_⟩
  simp only [hybrid_recipe_search, hsem, List.length_nil]
  rw [if_neg (by norm_num), show sortByScoreDesc [] = [] from List.mergeSort_nil]
  exact pyTake_zero _

/-! ## Claim C5 -/

/-- Claim C5: when no corpus recipe carries an embedding, or when the single
embedding call fails, the Semantic Retriever's outcome is exactly the Keyword
Retriever's result; and the retriever depends on the provider only through its
value at the single query string (no retry, no other call), so no provider
failure is ever surfaced as an error. -/
theorem semantic_fallback_to_keyword (corpus : List RecipeData)
    (embedProvider : String → Except String (List ℝ)) (user : List String)
    (tk : ℤ) (thr : ℝ) :
    (hasEmbeddings corpus = false →
        find_recipes_by_ingredients corpus embedProvider user tk thr =
          find_recipes_by_keywords corpus user tk) ∧
      (∀ msg, embedProvider (queryText user) = Except.error msg →
        find_recipes_by_ingredients corpus embedProvider user tk thr =
          find_recipes_by_keywords corpus user tk) ∧
      ∀ p2 : String → Except String (List ℝ),
        embedProvider (queryText user) = p2 (queryText user) →
        find_recipes_by_ingredients corpus embedProvider user tk thr =
          find_recipes_by_ingredients corpus p2 user tk thr := by
  refine ⟨?_, ?_, ?_⟩
  · intro h
    by_cases hc : corpus.isEmpty
    · rw [find_recipes_by_ingredients, if_pos hc, find_recipes_by_keywords, if_pos hc]
    · rw [find_recipes_by_ingredients, if_neg hc, if_neg (by rw [h]; simp)]
  · intro msg hm
    by_cases hc : corpus.isEmpty
    · rw [find_recipes_by_ingredients, if_pos hc, find_recipes_by_keywords, if_pos hc]
    · rw [find_recipes_by_ingredients, if_neg hc]
      by_cases hE : hasEmbeddings corpus
      · rw [if_pos hE, hm]
      · rw [if_neg hE]
  · intro p2 hp
    by_cases hc : corpus.isEmpty
    · rw [find_recipes_by_ingredients, if_pos hc, find_recipes_by_ingredients, if_pos hc]
    · rw [find_recipes_by_ingredients, if_neg hc, find_recipes_by_ingredients, if_neg hc, ← hp]

/-- Witness for C5: a failing provider call on a corpus that does carry an
embedding falls back to the Keyword Retriever. -/
theorem semantic_fallback_to_keyword_witness :
    find_recipes_by_ingredients [rcpSemA] embedFail ["egg"] 3 0 =
      find_recipes_by_keywords [rcpSemA] ["egg"] 3 :=
  (semantic_fallback_to_keyword [rcpSemA] embedFail ["egg"] 3 0).2.1 "rate limited" rfl

/-! ## Claim C1 -/

/-- Claim C1: with a non-empty corpus that carries embeddings and a successful
query-embedding call, the Semantic Retriever returns exactly the per-recipe
candidates (recipes with an embedding and `cosine ≥ threshold`; all others are
skipped), sorted descending by `combined_score` and truncated to the first
`top_k`; each surviving candidate's score is `0.6 * sim + 0.4 * ratio` with
`ratio` the Lexical Matcher's match ratio; and the returned list is sorted
descending by `match_score`. -/
theorem semantic_retriever_characterization (corpus : List RecipeData)
    (embedProvider : String → Except String (List ℝ)) (user : List String)
    (tk : ℤ) (thr : ℝ) (qe : List ℝ) (hc : corpus ≠ [])
    (he : hasEmbeddings corpus = true)
    (hq : embedProvider (queryText user) = Except.ok qe) :
    find_recipes_by_ingredients corpus embedProvider user tk thr =
        pyTake tk (sortByScoreDesc
          (corpus.filterMap (semCandidate qe (user.flatMap normalize_ingredients) thr))) ∧
      (∀ r : RecipeData, ∀ e : List ℝ, r.embedding = some e → ¬e.isEmpty →
        (thr ≤ cosine_similarity qe e →
          ∃ rec, semCandidate qe (user.flatMap normalize_ingredients) thr r = some rec ∧
            rec.match_score = 0.6 * cosine_similarity qe e +
              0.4 * matchRatio (user.flatMap normalize_ingredients)
                (normalize_ingredients r.ingredients) ∧
            rec.recipe_id = r.recipe_id ∧
            rec.matched_ingredients =
              (classifyIngredients (user.flatMap normalize_ingredients)
                (normalize_ingredients r.ingredients)).1 ∧
            rec.missing_ingredients =
              (classifyIngredients (user.flatMap normalize_ingredients)
                (normalize_ingredients r.ingredients)).2) ∧
        (cosine_similarity qe e < thr →
          semCandidate qe (user.flatMap normalize_ingredients) thr r = none)) ∧
      List.Pairwise (fun a b => b.match_score ≤ a.match_score)
        (find_recipes_by_ingredients corpus embedProvider user tk thr) := by
  have hfind : find_recipes_by_ingredients corpus embedProvider user tk thr =
      pyTake tk (sortByScoreDesc
        (semanticLoop qe (user.flatMap normalize_ingredients) thr corpus)) := by
    rw [find_recipes_by_ingredients, if_neg (by rw [List.isEmpty_iff]; exact hc),
      if_pos he, hq]
  refine ⟨?_, ?_, ?_⟩
  · rw [hfind, semanticLoop_eq]
  · intro r e hre hne
    constructor
    · intro hth
      refine ⟨buildSemanticRec (user.flatMap normalize_ingredients) r (cosine_similarity qe e),
        ?_, ?_, rfl, rfl, rfl⟩
      · rw [semCandidate]
        simp only [hre]
        rw [if_neg hne, if_pos hth]
      · rw [buildSemanticRec, matchRatio]
        ring
    · intro hlt
      rw [semCandidate]
      simp only [hre]
      rw [if_neg hne, if_neg (not_le.mpr hlt)]
  · rw [hfind]
    exact (sortByScoreDesc_sorted _).sublist (pyTake_sublist _ _)

/-- Witness for C1 at a one-recipe corpus with an embedding and a successful
constant provider. -/
theorem semantic_retriever_characterization_witness :
    find_recipes_by_ingredients [rcpSemA] embedOk ["egg"] 5 0 =
      pyTake 5 (sortByScoreDesc ([rcpSemA].filterMap
        (semCandidate [1] (["egg"].flatMap normalize_ingredients) 0))) :=
  (semantic_retriever_characterization [rcpSemA] embedOk ["egg"] 5 0 [1]
    (by simp) rfl rfl).1

/-! ## Claim C2: dedup lemmas for the Hybrid Ranker -/

theorem semCandidate_recipe_id {qe : List ℝ} {un : List String} {thr : ℝ}
    {r : RecipeData} {rec : RecipeRecommendation}
    (h : semCandidate qe un thr r = some rec) : rec.recipe_id = r.recipe_id := by
  rw [semCandidate] at h
  split at h
  · exact Option.noConfusion h
  · split at h
    · exact Option.noConfusion h
    · split at h
      · injection h with h3
        rw [← h3]
        rfl
      · exact Option.noConfusion h

theorem kwCandidate_recipe_id {un : List String} {r : RecipeData}
    {rec : RecipeRecommendation}
    (h : kwCandidate un r = some rec) : rec.recipe_id = r.recipe_id := by
  simp only [kwCandidate] at h
  split at h
  · injection h with h3
    rw [← h3]
  · exact Option.noConfusion h

theorem filterMap_map_id_sublist {α β : Type} (f : α → Option β) (g : β → String)
    (h : α → String) (hf : ∀ a b, f a = some b → g b = h a) :
    ∀ l : List α, ((l.filterMap f).map g).Sublist (l.map h) := by
  intro l
  induction l with
  | nil => simp
  | cons a t ih =>
    rw [List.filterMap_cons, List.map_cons]
    cases hfa : f a with
    | none =>
      simp only [hfa]
      exact ih.cons _
    | some b =>
      simp only [hfa, List.map_cons]
      rw [hf a b hfa]
      exact ih.cons₂ _

theorem pyTake_sort_nodup (n : ℤ) (l : List RecipeRecommendation)
    (h : (l.map RecipeRecommendation.recipe_id).Nodup) :
    ((pyTake n (sortByScoreDesc l)).map RecipeRecommendation.recipe_id).Nodup := by
  have h1 : ((sortByScoreDesc l).map RecipeRecommendation.recipe_id).Nodup :=
    (((sortByScoreDesc_perm l).map RecipeRecommendation.recipe_id).symm).nodup h
  exact List.Nodup.sublist ((pyTake_sublist n (sortByScoreDesc l)).map _) h1

theorem find_kw_nodup (corpus : List RecipeData) (user : List String) (tk : ℤ)
    (h : (corpus.map RecipeData.recipe_id).Nodup) :
    ((find_recipes_by_keywords corpus user tk).map RecipeRecommendation.recipe_id).Nodup := by
  rw [find_recipes_by_keywords]
  split
  · simp
  · apply pyTake_sort_nodup
    rw [keywordLoop_eq]
    exact List.Nodup.sublist
      (filterMap_map_id_sublist _ _ _ (fun a b hb => kwCandidate_recipe_id hb) corpus) h

theorem find_sem_nodup (corpus : List RecipeData)
    (embedProvider : String → Except String (List ℝ)) (user : List String)
    (tk : ℤ) (thr : ℝ) (h : (corpus.map RecipeData.recipe_id).Nodup) :
    ((find_recipes_by_ingredients corpus embedProvider user tk thr).map
      RecipeRecommendation.recipe_id).Nodup := by
  rw [find_recipes_by_ingredients]
  split
  · simp
  · split
    · cases embedProvider (queryText user) with
      | error e => exact find_kw_nodup corpus user tk h
      | ok qe =>
        apply pyTake_sort_nodup
        rw [semanticLoop_eq]
        exact List.Nodup.sublist
          (filterMap_map_id_sublist _ _ _ (fun a b hb => semCandidate_recipe_id hb) corpus) h
    · exact find_kw_nodup corpus user tk h

theorem find_kw_length_le (corpus : List RecipeData) (user : List String) (tk : ℤ)
    (htk : 0 ≤ tk) :
    ((find_recipes_by_keywords corpus user tk).length : ℤ) ≤ tk := by
  rw [find_recipes_by_keywords]
  split
  · simpa using htk
  · exact pyTake_length_le _ htk _

theorem find_sem_length_le (corpus : List RecipeData)
    (embedProvider : String → Except String (List ℝ)) (user : List String)
    (tk : ℤ) (thr : ℝ) (htk : 0 ≤ tk) :
    ((find_recipes_by_ingredients corpus embedProvider user tk thr).length : ℤ) ≤ tk := by
  rw [find_recipes_by_ingredients]
  split
  · simpa using htk
  · split
    · cases embedProvider (queryText user) with
      | error e => exact find_kw_length_le corpus user tk htk
      | ok qe => exact pyTake_length_le _ htk _
    · exact find_kw_length_le corpus user tk htk

theorem mergeKeywordResults_extends (tk : ℤ) :
    ∀ (kw acc : List RecipeRecommendation) (seen : List String),
      ∃ ex, mergeKeywordResults tk kw acc seen = acc ++ ex := by
  intro kw
  induction kw with
  | nil => intro acc seen; exact ⟨[], (List.append_nil acc).symm⟩
  | cons r rest ih =>
    intro acc seen
    simp only [mergeKeywordResults]
    by_cases h1 : r.recipe_id ∈ seen
    · rw [if_pos h1]
      exact ih acc seen
    · rw [if_neg h1]
      by_cases h2 : tk ≤ ((acc ++ [r]).length : ℤ)
      · rw [if_pos h2]
        exact ⟨[r], rfl⟩
      · rw [if_neg h2]
        obtain ⟨ex, hex⟩ := ih (acc ++ [r]) (r.recipe_id :: seen)
        exact ⟨[r] ++ ex, by rw [hex, List.append_assoc]⟩

theorem mergeKeywordResults_length_le (tk : ℤ) :
    ∀ (kw acc : List RecipeRecommendation) (seen : List String),
      (acc.length : ℤ) < tk →
      ((mergeKeywordResults tk kw acc seen).length : ℤ) ≤ tk := by
  intro kw
  induction kw with
  | nil =>
    intro acc seen h
    exact le_of_lt h
  | cons r rest ih =>
    intro acc seen h
    simp only [mergeKeywordResults]
    by_cases h1 : r.recipe_id ∈ seen
    · rw [if_pos h1]
      exact ih acc seen h
    · rw [if_neg h1]
      by_cases h2 : tk ≤ ((acc ++ [r]).length : ℤ)
      · rw [if_pos h2, List.length_append, List.length_singleton]
        omega
      · rw [if_neg h2]
        exact ih _ _ (not_le.mp h2)

theorem mergeKeywordResults_nodup (tk : ℤ) :
    ∀ (kw acc : List RecipeRecommendation) (seen : List String),
      (acc.map RecipeRecommendation.recipe_id).Nodup →
      (∀ a ∈ acc, a.recipe_id ∈ seen) →
      ((mergeKeywordResults tk kw acc seen).map RecipeRecommendation.recipe_id).Nodup := by
  intro kw
  induction kw with
  | nil =>
    intro acc seen h _
    exact h
  | cons r rest ih =>
    intro acc seen hnd hseen
    simp only [mergeKeywordResults]
    by_cases h1 : r.recipe_id ∈ seen
    · rw [if_pos h1]
      exact ih acc seen hnd hseen
    · rw [if_neg h1]
      have hnd2 : ((acc ++ [r]).map RecipeRecommendation.recipe_id).Nodup := by
        rw [List.map_append]
        refine List.Nodup.append hnd (List.nodup_singleton _) ?_
        intro x hx hx2
        simp only [List.map_cons, List.map_nil, List.mem_singleton] at hx2
        subst hx2
        obtain ⟨a, ha, hai⟩ := List.mem_map.mp hx
        exact h1 (hai ▸ hseen a ha)
      by_cases h2 : tk ≤ ((acc ++ [r]).length : ℤ)
      · rw [if_pos h2]
        exact hnd2
      · rw [if_neg h2]
        refine ih _ _ hnd2 ?_
        intro a ha
        rcases List.mem_append.mp ha with hmem | hmem
        · exact List.mem_cons_of_mem _ (hseen a hmem)
        · rw [List.mem_singleton] at hmem
          subst hmem
          exact List.mem_cons_self _ _

/-- Claim C2 counterexample: with `top_k = -1` the Semantic Retriever returns a
recommendation that the Hybrid Ranker then drops entirely — the merged result
carries no semantic-path recommendation at all. -/
theorem hybrid_drops_semantic_on_negative_topk :
    find_recipes_by_ingredients [rcpPairA, rcpPairB] embedOk ["x"] (-1) 0 ≠ [] ∧
      hybrid_recipe_search [rcpPairA, rcpPairB] embedOk ["x"] (-1) 0 = [] := by
  have hxa : semCandidate [1] (["x"].flatMap normalize_ingredients) 0 rcpPairA
      = some (buildSemanticRec (["x"].flatMap normalize_ingredients) rcpPairA
          (cosine_similarity [1] [1])) := by
    rw [semCandidate]
    have he : rcpPairA.embedding = some [1] := rfl
    simp only [he]
    rw [if_neg (by simp), if_pos (by rw [cosine_one_one]; norm_num)]
  have hxb : semCandidate [1] (["x"].flatMap normalize_ingredients) 0 rcpPairB
      = some (buildSemanticRec (["x"].flatMap normalize_ingredients) rcpPairB
          (cosine_similarity [1] [1])) := by
    rw [semCandidate]
    have he : rcpPairB.embedding = some [1] := rfl
    simp only [he]
    rw [if_neg (by simp), if_pos (by rw [cosine_one_one]; norm_num)]
  have hloop : (semanticLoop [1] (["x"].flatMap normalize_ingredients) 0
      [rcpPairA, rcpPairB]).length = 2 := by
    rw [semanticLoop_eq]
    simp only [List.filterMap_cons, List.filterMap_nil, hxa, hxb]
    rfl
  have hfind : find_recipes_by_ingredients [rcpPairA, rcpPairB] embedOk ["x"] (-1) 0
      = pyTake (-1) (sortByScoreDesc (semanticLoop [1] (["x"].flatMap normalize_ingredients) 0
          [rcpPairA, rcpPairB])) := by
    rw [find_recipes_by_ingredients, if_neg (by simp),
      if_pos (show hasEmbeddings [rcpPairA, rcpPairB] = true from rfl)]
    rfl
  have hlen : (find_recipes_by_ingredients [rcpPairA, rcpPairB] embedOk ["x"] (-1) 0).length = 1 := by
    rw [hfind, pyTake, if_neg (by norm_num), List.length_take, length_sortByScoreDesc, hloop]
    decide
  constructor
  · intro h0
    rw [h0] at hlen
    simp at hlen
  · simp only [hybrid_recipe_search]
    rw [hlen, if_neg (by norm_num)]
    have h2 : (sortByScoreDesc (find_recipes_by_ingredients [rcpPairA, rcpPairB]
        embedOk ["x"] (-1) 0)).length = 1 := by
      rw [length_sortByScoreDesc, hlen]
    rw [pyTake, if_neg (by norm_num), h2]
    simp

/-- Claim C2, amended: for `top_k ≥ 0` and a corpus with pairwise-distinct recipe
ids (the corpus invariant), the Hybrid Ranker's list contains each `recipe_id` at
most once, every recommendation returned by the Semantic Retriever appears as-is
(score included) in the merged result, and any member carrying the same
`recipe_id` IS that semantic recommendation, never a keyword-path one.  (For
negative `top_k` the final slice can drop semantic results — see the
counterexample.) -/
theorem hybrid_dedup_semantic_priority (corpus : List RecipeData)
    (embedProvider : String → Except String (List ℝ)) (user : List String)
    (tk : ℤ) (thr : ℝ) (htk : 0 ≤ tk)
    (hnd : (corpus.map RecipeData.recipe_id).Nodup) :
    ((hybrid_recipe_search corpus embedProvider user tk thr).map
        RecipeRecommendation.recipe_id).Nodup ∧
      ∀ s ∈ find_recipes_by_ingredients corpus embedProvider user tk thr,
        s ∈ hybrid_recipe_search corpus embedProvider user tk thr ∧
          ∀ t ∈ hybrid_recipe_search corpus embedProvider user tk thr,
            t.recipe_id = s.recipe_id → t = s := by
  have key : ∃ merged : List RecipeRecommendation,
      hybrid_recipe_search corpus embedProvider user tk thr
          = pyTake tk (sortByScoreDesc merged)
        ∧ (∃ ex, merged = find_recipes_by_ingredients corpus embedProvider user tk thr ++ ex)
        ∧ (merged.length : ℤ) ≤ tk
        ∧ (merged.map RecipeRecommendation.recipe_id).Nodup := by
    by_cases hlt :
        ((find_recipes_by_ingredients corpus embedProvider user tk thr).length : ℤ) < tk
    · refine ⟨mergeKeywordResults tk (find_recipes_by_keywords corpus user tk)
        (find_recipes_by_ingredients corpus embedProvider user tk thr)
        ((find_recipes_by_ingredients corpus embedProvider user tk thr).map
          RecipeRecommendation.recipe_id), ?_, ?_, ?_, ?_⟩
      · simp only [hybrid_recipe_search]
        rw [if_pos hlt]
      · exact mergeKeywordResults_extends _ _ _ _
      · exact mergeKeywordResults_length_le _ _ _ _ hlt
      · exact mergeKeywordResults_nodup _ _ _ _
          (find_sem_nodup corpus embedProvider user tk thr hnd)
          (fun a ha => List.mem_map_of_mem _ ha)
    · refine ⟨find_recipes_by_ingredients corpus embedProvider user tk thr, ?_,
        ⟨[], (List.append_nil _).symm⟩,
        find_sem_length_le corpus embedProvider user tk thr htk,
        find_sem_nodup corpus embedProvider user tk thr hnd⟩
      simp only [hybrid_recipe_search]
      rw [if_neg hlt]
  obtain ⟨merged, hhyb, ⟨ex, hex⟩, hlenm, hndm⟩ := key
  have hsortlen : ((sortByScoreDesc merged).length : ℤ) ≤ tk := by
    rw [length_sortByScoreDesc]
    exact hlenm
  have hhyb2 : hybrid_recipe_search corpus embedProvider user tk thr = sortByScoreDesc merged := by
    rw [hhyb, pyTake_all htk hsortlen]
  have hndh : ((hybrid_recipe_search corpus embedProvider user tk thr).map
      RecipeRecommendation.recipe_id).Nodup := by
    rw [hhyb2]
    exact (((sortByScoreDesc_perm merged).map RecipeRecommendation.recipe_id).symm).nodup hndm
  refine ⟨hndh, ?_⟩
  intro s hs
  have hsm : s ∈ merged := by
    rw [hex]
    exact List.mem_append_left _ hs
  have hsh : s ∈ hybrid_recipe_search corpus embedProvider user tk thr := by
    rw [hhyb2]
    exact ((sortByScoreDesc_perm merged).mem_iff).mpr hsm
  refine ⟨hsh, ?_⟩
  intro t hth htid
  exact List.inj_on_of_nodup_map hndh hth hsh htid

/-- Witness for the amended C2 on a concrete two-recipe corpus. -/
theorem hybrid_dedup_semantic_priority_witness :
    ((hybrid_recipe_search [rcpPairA, rcpPairB] embedOk ["x"] 5 0).map
        RecipeRecommendation.recipe_id).Nodup :=
  (hybrid_dedup_semantic_priority [rcpPairA, rcpPairB] embedOk ["x"] 5 0
    (by norm_num) (by decide)).1
